import Mathlib

/-!
Verification of the schema-to-model compiler core (`ModelClass` and friends).

Shallow embedding of:
  * `src/unnamed/part_000`  — `ModelClass` (constructor, `getPrivateNameForField`,
    `implementInterfaceForParentSchema`, `addDiscriminator`);
  * `src/unnamed/part_001`  — `ProxyProperty` / `VirtualProperty`;
  * `src/extensions/csharp-v2/model/property.ts` — `ModelProperty`.

The cross-class discriminator machinery mutates a world of already-built model
classes, so it is embedded as explicit state passing over a list of class
states indexed by build order (a parent class is always fully constructed
before any child that names it in `allOf` registers with it, so every recorded
polymorphic parent has a strictly smaller index than its registering child).
-/

namespace AutorestModel

/-- HeaderPropertyType from autorest.codemodel-v3: the marker stored at
`property.details.csharp[HeaderProperty]`. -/
inductive HeaderPropertyType
  | header
  | headerAndBody
deriving DecidableEq

/-- Access modifiers from codegen-csharp that the core consults. -/
inductive Access
  | publicAccess
  | internal
deriving DecidableEq

/-- The additional-properties rule of a schema: absent, `true` (any value
type), or a fixed value schema. -/
inductive APRule
  | absent
  | anyType
  | typed (valueSchema : String)
deriving DecidableEq, Inhabited

/-- One schema property, carrying exactly the attributes the core reads:
name, serialized name, the header marker from `details.csharp[HeaderProperty]`,
the accessor restriction its interface property carries (`setAccess`), the
required flag, and the presence/value check statements its (external) type
declaration emits. -/
structure SProp where
  name : String
  serializedName : String
  headerProperty : Option HeaderPropertyType
  setAccess : Access
  required : Bool
  presenceCheck : String
  valueCheck : String
deriving DecidableEq

/-- A schema node. Parent schemas (`allOf`) are referenced by identity:
indices into the table of schemas in build order. -/
structure Schema where
  name : String
  allOf : List Nat
  props : List SProp
  discriminator : Option String
  discriminatorValue : Option String
  additionalProperties : APRule
deriving DecidableEq

instance : Inhabited Schema :=
  ⟨{ name := "", allOf := [], props := [], discriminator := none,
     discriminatorValue := none, additionalProperties := APRule.absent }⟩

/-! ## Discriminator machinery (part_000 lines 64-67, 88-134, 327-334) -/

/-- JS `Map.set` on an association list: replace the value at an existing key
in place (preserving insertion order), otherwise append at the end. -/
def mapSet (m : List (String × Nat)) (k : String) (v : Nat) : List (String × Nat) :=
  if m.any (fun e => e.1 = k) then
    m.map (fun e => if e.1 = k then (k, v) else e)
  else
    m ++ [(k, v)]

/-- JS `Map.get` on an association list. -/
def mapGet (m : List (String × Nat)) (k : String) : Option Nat :=
  (m.find? (fun e => e.1 = k)).map (fun e => e.2)

/-- Number of entries carried for a given key. -/
def countKey (m : List (String × Nat)) (k : String) : Nat :=
  m.countP (fun e => e.1 = k)

/-- The discriminator-relevant state of one `ModelClass` (part_000 lines
64-67): the `isPolymorphic` flag, the recorded polymorphic parents
(`parentModelClasses`, by class index), and the `discriminators` map. -/
structure DiscState where
  isPolymorphic : Bool
  parentModelClasses : List Nat
  discriminators : List (String × Nat)
deriving DecidableEq

instance : Inhabited DiscState :=
  ⟨{ isPolymorphic := false, parentModelClasses := [], discriminators := [] }⟩

/-- Look a class up in the world by index. -/
def getCls : List DiscState → Nat → DiscState
  | [], _ => default
  | c :: _, 0 => c
  | _ :: rest, i + 1 => getCls rest i

/-- Set one entry of class `i`'s discriminator map (part_000 line 328). -/
def setDisc (v : String) (d : Nat) : List DiscState → Nat → List DiscState
  | [], _ => []
  | c :: rest, 0 => { c with discriminators := mapSet c.discriminators v d } :: rest
  | c :: rest, i + 1 => c :: setDisc v d rest i

/-- Recursion workhorse for `addDiscriminator` (part_000 lines 327-334):
record the entry in the target's map, then forward the same registration to
every recorded polymorphic parent of the target. The source recursion has no
structural bound; it terminates because the recorded-parent graph is a DAG
ordered by build order (a parent's index is strictly below its child's), so a
fuel of `target + 1` always suffices — `addDiscriminator` below supplies it. -/
def addDiscriminatorAux (v : String) (d : Nat) : Nat → List DiscState → Nat → List DiscState
  | 0, w, _ => w
  | fuel + 1, w, target =>
    let w1 := setDisc v d w target
    ((getCls w1 target).parentModelClasses).foldl
      (fun acc p => addDiscriminatorAux v d fuel acc p) w1

/-- Embeds `ModelClass.addDiscriminator` (part_000 lines 327-334). -/
def addDiscriminator (w : List DiscState) (target : Nat) (v : String) (d : Nat) : List DiscState :=
  addDiscriminatorAux v d (target + 1) w target

/-- Fresh discriminator state of a class under construction (part_000 lines
88-90 and 108-113): `isPolymorphic` is set exactly when the schema declares a
discriminator property. -/
def mkDiscState (s : Schema) : DiscState :=
  { isPolymorphic := s.discriminator.isSome
    parentModelClasses := []
    discriminators := [] }

/-- Append a parent class index to `this.parentModelClasses` of class `i`
(part_000 line 128). -/
def pushParent : List DiscState → Nat → Nat → List DiscState
  | [], _, _ => []
  | c :: rest, 0, p => { c with parentModelClasses := c.parentModelClasses ++ [p] } :: rest
  | c :: rest, i + 1, p => c :: pushParent rest i p

/-- Embeds part_000 lines 115-134: a schema carrying an
`x-ms-discriminator-value` walks its `allOf` parents; each parent that is
polymorphic is recorded in `parentModelClasses` and told who we are via
`addDiscriminator`. -/
def registerWithParents (w : List DiscState) (selfId : Nat) (literal : String)
    (allOfIds : List Nat) : List DiscState :=
  allOfIds.foldl
    (fun acc p =>
      if (getCls acc p).isPolymorphic then
        addDiscriminator (pushParent acc selfId p) p literal selfId
      else acc)
    w

/-- One step of the build pass over the discriminator machinery: construct the
class state for the next schema (part_000 lines 84-113), then perform its
discriminator-value registration (lines 115-134). -/
def constructStep (w : List DiscState) (s : Schema) : List DiscState :=
  let selfId := w.length
  let w1 := w ++ [mkDiscState s]
  match s.discriminatorValue with
  | some v => registerWithParents w1 selfId v s.allOf
  | none => w1

/-- The build pass over a list of schemas in build order. -/
def buildPass (schemas : List Schema) : List DiscState :=
  schemas.foldl constructStep []

/-- Well-formedness of a world: every recorded parent index is strictly below
the index of the class recording it (parents are constructed before their
children). This is the DAG invariant the source relies on for termination. -/
def wfParents (w : List DiscState) : Prop :=
  ∀ i, i < w.length → ∀ p ∈ (getCls w i).parentModelClasses, p < i

instance (w : List DiscState) : Decidable (wfParents w) := by
  unfold wfParents
  exact Nat.decidableBallLT _ _

/-- Reachability through the recorded polymorphic-parent chain: `PolyAncestor
w t a` holds when class `a` is reachable from class `t` by repeatedly stepping
to a recorded parent (indices decrease along the chain). -/
inductive PolyAncestor (w : List DiscState) : Nat → Nat → Prop
  | refl (t : Nat) : PolyAncestor w t t
  | step (t p a : Nat) (hp : p ∈ (getCls w t).parentModelClasses) (hlt : p < t)
      (h : PolyAncestor w p a) : PolyAncestor w t a

/-! ## Class-shape builder (part_000 lines 84-311, part_001, property.ts) -/

/-- A virtual/implemented property as the core shapes it: accessor statement
bodies are optional; an absent setter means the property exposes no write
operation. -/
structure VProp where
  name : String
  getterStatements : Option String
  setterStatements : Option String
deriving DecidableEq

/-- Embeds the `VirtualProperty` constructor (part_001 lines 20-27): both a
getter and a setter statement are installed, forwarding through the container
expression. -/
def mkVirtualProperty (name : String) (containerExpression : String) : VProp :=
  { name := name
    getterStatements := some ("return " ++ containerExpression ++ "." ++ name ++ ";")
    setterStatements := some (containerExpression ++ "." ++ name ++ " = value;") }

/-- Embeds part_000 lines 292-299: create the proxy virtual property for one
inherited interface property (the source passes the property itself as the
container expression of line 292), then, when the source property's setter is
internally restricted, remove the setter statements. -/
def mkParentVirtualProperty (each : SProp) : VProp :=
  let vp := mkVirtualProperty each.name each.name
  if each.setAccess = Access.internal then { vp with setterStatements := none } else vp

/-- JS `Array.prototype.indexOf`: the index of the first occurrence, `-1` when
absent. The result is an `Int` because the source uses the raw value in a
truthiness test. -/
def jsIndexOf (l : List Nat) (x : Nat) : Int :=
  match l.findIdx? (fun y => y = x) with
  | some i => (i : Int)
  | none => -1

/-- Loop body of `getPrivateNameForField` (part_000 lines 252-263): check the
current candidate name; if free, take it; otherwise move to
`baseName ++ toString n`, increment `n`, and continue while the incremented
counter stays below 100. Exhausting the bound throws (`none`). -/
def getPrivateNameForFieldAux (fields : List String) (baseName : String)
    (n : Nat) (name : String) : Option String :=
  if ¬ fields.contains name then some name
  else
    let next := baseName ++ toString n
    if n + 1 < 100 then getPrivateNameForFieldAux fields baseName (n + 1) next
    else none
termination_by 100 - n
decreasing_by omega

/-- Embeds `ModelClass.getPrivateNameForField` (part_000 lines 252-263);
`fields` is the list of field names already present on the class. -/
def getPrivateNameForField (fields : List String) (baseName : String) : Option String :=
  getPrivateNameForFieldAux fields baseName 0 baseName

/-- Models the external naming utilities of part_000 line 281
(`camelCase(deconstruct(className.replace(...)))`; the spec places
naming/casing utilities outside the core): lower-case the first character of
the dot-free class name. -/
def camelCaseName (s : String) : String :=
  match s.data with
  | [] => ""
  | c :: cs => String.mk (c.toLower :: cs)

/-- Statement text emitted by `parentTypeDeclaration.validatePresence`
(part_000 line 303); the emitter itself is an external type declaration. -/
def validatePresenceOf (fieldName : String) : String :=
  "await eventListener.AssertNotNull(" ++ fieldName ++ ");"

/-- Statement text emitted by `parentTypeDeclaration.validateValue` (part_000
line 304). -/
def validateValueOf (fieldName : String) : String :=
  "await eventListener.AssertObjectIsValid(" ++ fieldName ++ ");"

/-- The mutable pieces of a `ModelClass` that `implementInterfaceForParentSchema`
touches: `this.modelInterface.interfaces` (parent interface identities; a
freshly created model interface implements nothing yet), `this.fields` (by
name), `this.backingFields` (class name and field name of each backing entry),
the added virtual properties, the accumulated validation statements, and a
fatal-error flag standing for a thrown `Error`. -/
structure BuildState where
  interfaceInterfaces : List Nat
  fields : List String
  backingFields : List (String × String)
  virtualProperties : List VProp
  validationStatements : List String
  fatalError : Bool
deriving DecidableEq

def initialBuildState : BuildState :=
  { interfaceInterfaces := []
    fields := []
    backingFields := []
    virtualProperties := []
    validationStatements := []
    fatalError := false }

/-- Embeds `ModelClass.implementInterfaceForParentSchema` (part_000 lines
266-311) faithfully, including two oddities of the source:
  * line 272 guards with `if (this.modelInterface.interfaces.indexOf(parentInterface))`,
    a JS truthiness test on the raw index, so the call returns early exactly
    when the parent interface is NOT at index 0 (in particular when it has
    never been recorded, `indexOf` being `-1`);
  * lines 306-310 recurse once per grandparent but pass `parentSchema` itself
    (not `each`), so the recursion never descends to a grandparent.
The source recursion carries no structural bound (and diverges when the guard
lets the same parent through repeatedly), so the embedding takes a fuel
argument bounding recursion depth only; concrete runs use ample fuel. -/
def implementInterfaceForParentSchema (table : List Schema) :
    Nat → BuildState → Nat → String → BuildState
  | 0, st, _, _ => st
  | fuel + 1, st, parentId, containerExpression =>
    if jsIndexOf st.interfaceInterfaces parentId ≠ 0 then st
    else
      let parentSchema := (table.get? parentId).getD default
      let st1 := { st with interfaceInterfaces := st.interfaceInterfaces ++ [parentId] }
      let className := parentSchema.name
      match getPrivateNameForField st1.fields ("_" ++ camelCaseName className) with
      | none => { st1 with fatalError := true }
      | some fieldName =>
        let st2 := { st1 with
          fields := st1.fields ++ [fieldName]
          backingFields := st1.backingFields ++ [(className, fieldName)] }
        let st3 := { st2 with
          virtualProperties :=
            st2.virtualProperties ++ parentSchema.props.map mkParentVirtualProperty }
        let st4 := { st3 with
          validationStatements := st3.validationStatements ++
            [validatePresenceOf fieldName, validateValueOf fieldName] }
        parentSchema.allOf.foldl
          (fun acc _each =>
            implementInterfaceForParentSchema table fuel acc parentId
              (containerExpression ++ "." ++ fieldName))
          st4

/-- The `allOf` loop of the constructor (part_000 lines 140-143): flatten each
direct parent in declaration order. -/
def handleAllOf (table : List Schema) (fuel : Nat) (st : BuildState)
    (allOfIds : List Nat) : BuildState :=
  allOfIds.foldl
    (fun acc p => implementInterfaceForParentSchema table fuel acc p "this") st

/-- Embeds part_000 lines 149-160: each own schema property receives an
internal field on the class and appends its presence check (empty when the
property is not required, property.ts lines 45-50) and value check to the
accumulated validation statements. -/
def addOwnProperty (acc : BuildState) (p : SProp) : BuildState :=
  { acc with
    fields := acc.fields ++ [p.name]
    validationStatements := acc.validationStatements ++
      [if p.required then p.presenceCheck else "", p.valueCheck] }

/-- Project-wide configuration flags the constructor consults. -/
structure ProjectFlags where
  storagePipeline : Bool
  jsonSerialization : Bool
  xmlSerialization : Bool
deriving DecidableEq

/-- Truthiness of `this.validationStatements.implementation.trim()` (part_000
line 195): the joined statement text trims to something non-empty exactly when
some recorded statement is non-empty (the external validate emitters return
either the empty string or real code). -/
def statementsHaveContent (stmts : List String) : Bool :=
  stmts.any (fun s => s ≠ "")

/-- The class-shape outputs of one `ModelClass` construction. -/
structure ModelClassDesc where
  isPolymorphic : Bool
  hasHeaderProperties : Bool
  interfaceInterfaces : List Nat
  fields : List String
  backingFields : List (String × String)
  virtualProperties : List VProp
  validationStatements : List String
  hasValidateMethod : Bool
  additionalPropertiesCapability : Option (String × String)
  hasReadHeaders : Bool
  hasJsonSerializer : Bool
  hasXmlSerializer : Bool
  fatalError : Bool
deriving DecidableEq

/-- Embeds the `ModelClass` constructor (part_000 lines 84-250) as far as the
class-local shape goes (the cross-class discriminator side effects live in
`constructStep`). Faithful points worth naming:
  * line 102 computes `hasHeaderProperties` from the schema's OWN properties
    with the disjunct `=== HeaderPropertyType.Header` duplicated verbatim;
  * lines 183-193 attach `IDictionary<string, object>` only when
    `additionalProperties === true`; the `else` branch of the source holds a
    comment and no code;
  * lines 194-208 add `Validate`/`IValidates` only outside storage-pipeline
    mode and only when the accumulated statements have content;
  * line 215 gates `ReadHeaders` on `hasHeaderProperties`;
  * line 236's `hasNonHeaderProperties` ranges over `this.properties`, which
    holds exactly the virtual properties added so far (`IsHeaderProperty` is
    commented out in property.ts line 57, so it is never set on any of them). -/
def buildModelClass (table : List Schema) (s : Schema) (proj : ProjectFlags)
    (fuel : Nat) : ModelClassDesc :=
  let isPoly := s.discriminator.isSome
  let hasHeaderProps := s.props.any (fun p =>
    p.headerProperty == some HeaderPropertyType.header
      || p.headerProperty == some HeaderPropertyType.header)
  let st := handleAllOf table fuel initialBuildState s.allOf
  let st2 := s.props.foldl addOwnProperty st
  let apCap : Option (String × String) :=
    match s.additionalProperties with
    | APRule.anyType => some ("System.String", "System.Object")
    | APRule.typed _ => none
    | APRule.absent => none
  let hasValidate := !proj.storagePipeline && statementsHaveContent st2.validationStatements
  let hasNonHeaderProps := st2.virtualProperties.any (fun _ => true)
  { isPolymorphic := isPoly
    hasHeaderProperties := hasHeaderProps
    interfaceInterfaces := st2.interfaceInterfaces
    fields := st2.fields
    backingFields := st2.backingFields
    virtualProperties := st2.virtualProperties
    validationStatements := st2.validationStatements
    hasValidateMethod := hasValidate
    additionalPropertiesCapability := apCap
    hasReadHeaders := hasHeaderProps
    hasJsonSerializer := proj.jsonSerialization
    hasXmlSerializer := hasNonHeaderProps && proj.xmlSerialization
    fatalError := st2.fatalError }

/-- Follows the spec's words (not the source), for comparison against the
built class: "a class gets a header-reading capability iff any of its exposed
properties (own or inherited) is marked as header-sourced", the exposed
surface including every ancestor property transitively. The fuel bounds the
ancestor-chain depth. -/
def specExposedHeaderSourced (table : List Schema) : Nat → Schema → Bool
  | 0, _ => false
  | fuel + 1, s =>
    s.props.any (fun p => p.headerProperty.isSome)
      || s.allOf.any (fun pid =>
          specExposedHeaderSourced table fuel ((table.get? pid).getD default))

/-! ## Derived notions and concrete scenario inputs -/

/-- The recorded-parent lists of a world, in order; the discriminator maps are
the only state `addDiscriminator` may change, so this projection is invariant
under it. -/
def parentsMap (w : List DiscState) : List (List Nat) :=
  w.map (fun c => c.parentModelClasses)

/-- Candidate names `getPrivateNameForField` scans, in scan order: the base
name itself followed by `base0` … `base98` (the loop increments to 100 before
re-testing, so `base99` is built but never tested). -/
def fieldNameCandidates (baseName : String) : List String :=
  baseName :: (List.range 99).map (fun i => baseName ++ toString i)

/-- The candidate at scan position `n`. -/
def candidateAt (baseName : String) : Nat → String
  | 0 => baseName
  | n + 1 => baseName ++ toString n

/-- Chain scenario: polymorphic root `R`; child `C` carrying discriminator
literal `"c"`, itself polymorphic; grandchild `G` carrying literal `"g"` with
parent `C`. Indices: `R = 0`, `C = 1`, `G = 2`. -/
def schemaR : Schema :=
  { name := "R", allOf := [], props := [], discriminator := some "kind",
    discriminatorValue := none, additionalProperties := APRule.absent }

def schemaC : Schema :=
  { name := "C", allOf := [0], props := [], discriminator := some "kind2",
    discriminatorValue := some "c", additionalProperties := APRule.absent }

def schemaG : Schema :=
  { name := "G", allOf := [1], props := [], discriminator := none,
    discriminatorValue := some "g", additionalProperties := APRule.absent }

def chainWorld : List DiscState :=
  buildPass [schemaR, schemaC, schemaG]

/-- Animal scenario of the spec: root `Animal` with discriminator property
`kind`, concrete subclasses `Dog` (`"dog"`) and `Cat` (`"cat"`). -/
def animalKindProp : SProp :=
  { name := "Kind", serializedName := "kind", headerProperty := none,
    setAccess := Access.publicAccess, required := true,
    presenceCheck := "presenceKind", valueCheck := "valueKind" }

def schemaAnimal : Schema :=
  { name := "Animal", allOf := [], props := [animalKindProp],
    discriminator := some "kind", discriminatorValue := none,
    additionalProperties := APRule.absent }

def schemaDog : Schema :=
  { name := "Dog", allOf := [0], props := [], discriminator := none,
    discriminatorValue := some "dog", additionalProperties := APRule.absent }

def schemaCat : Schema :=
  { name := "Cat", allOf := [0], props := [], discriminator := none,
    discriminatorValue := some "cat", additionalProperties := APRule.absent }

def animalWorld : List DiscState :=
  buildPass [schemaAnimal, schemaDog, schemaCat]

/-- A plain required property used by several scenarios. -/
def plainProp : SProp :=
  { name := "X", serializedName := "x", headerProperty := none,
    setAccess := Access.publicAccess, required := true,
    presenceCheck := "presenceX", valueCheck := "valueX" }

/-- Default project flags: storage pipeline off, both serializations on. -/
def projDefault : ProjectFlags :=
  { storagePipeline := false, jsonSerialization := true, xmlSerialization := true }

/-- Duplicate-parent scenario: `Child.allOf` references the same parent
identity twice. -/
def parentSchemaDup : Schema :=
  { name := "Parent", allOf := [], props := [plainProp], discriminator := none,
    discriminatorValue := none, additionalProperties := APRule.absent }

def childSchemaDup : Schema :=
  { name := "Child", allOf := [0, 0], props := [], discriminator := none,
    discriminatorValue := none, additionalProperties := APRule.absent }

def dupTable : List Schema := [parentSchemaDup, childSchemaDup]

/-- Three-level chain scenario for flattening: `Leaf → Middle → Grandparent`,
with the grandparent owning a property that transitive flattening would have
to expose on the leaf. -/
def grandProp : SProp :=
  { name := "GrandProp", serializedName := "grandProp", headerProperty := none,
    setAccess := Access.publicAccess, required := true,
    presenceCheck := "presenceGrand", valueCheck := "valueGrand" }

def grandparentSchema : Schema :=
  { name := "Grandparent", allOf := [], props := [grandProp],
    discriminator := none, discriminatorValue := none,
    additionalProperties := APRule.absent }

def middleSchema : Schema :=
  { name := "Middle", allOf := [0], props := [], discriminator := none,
    discriminatorValue := none, additionalProperties := APRule.absent }

def leafSchema : Schema :=
  { name := "Leaf", allOf := [1], props := [], discriminator := none,
    discriminatorValue := none, additionalProperties := APRule.absent }

def chainTable : List Schema := [grandparentSchema, middleSchema, leafSchema]

/-- A read-only interface property (its setter is internally restricted). -/
def readOnlyProp : SProp :=
  { name := "ProvisioningState", serializedName := "provisioningState",
    headerProperty := none, setAccess := Access.internal, required := false,
    presenceCheck := "", valueCheck := "" }

/-- Additional-properties scenarios. -/
def schemaAPAny : Schema :=
  { name := "OpenBag", allOf := [], props := [], discriminator := none,
    discriminatorValue := none, additionalProperties := APRule.anyType }

def schemaAPTyped : Schema :=
  { name := "TypedBag", allOf := [], props := [], discriminator := none,
    discriminatorValue := none, additionalProperties := APRule.typed "string" }

def schemaAPAbsent : Schema :=
  { name := "ClosedBag", allOf := [], props := [], discriminator := none,
    discriminatorValue := none, additionalProperties := APRule.absent }

/-- Validation scenario: one required own property, so the accumulated
validation statements have content. -/
def validSchema : Schema :=
  { name := "Validated", allOf := [], props := [plainProp],
    discriminator := none, discriminatorValue := none,
    additionalProperties := APRule.absent }

/-- Header scenarios: a parent whose property is header-sourced, a child that
inherits it and owns none, and a schema whose own property carries the
`HeaderAndBody` marker. -/
def headerProp : SProp :=
  { name := "ETag", serializedName := "eTag",
    headerProperty := some HeaderPropertyType.header,
    setAccess := Access.publicAccess, required := false,
    presenceCheck := "", valueCheck := "checkETag" }

def headerParentSchema : Schema :=
  { name := "HeaderParent", allOf := [], props := [headerProp],
    discriminator := none, discriminatorValue := none,
    additionalProperties := APRule.absent }

def headerChildSchema : Schema :=
  { name := "HeaderChild", allOf := [0], props := [plainProp],
    discriminator := none, discriminatorValue := none,
    additionalProperties := APRule.absent }

def headerTable : List Schema := [headerParentSchema, headerChildSchema]

def bodyHeaderProp : SProp :=
  { name := "ContentLength", serializedName := "contentLength",
    headerProperty := some HeaderPropertyType.headerAndBody,
    setAccess := Access.publicAccess, required := false,
    presenceCheck := "", valueCheck := "" }

def bodyHeaderSchema : Schema :=
  { name := "BodyHeader", allOf := [], props := [bodyHeaderProp],
    discriminator := none, discriminatorValue := none,
    additionalProperties := APRule.absent }

/-! ## Helper lemmas -/

/-- A call whose parent interface is not at index 0 of the recorded interface
list returns immediately (part_000 lines 272-275); in particular every call on
a freshly created model interface does, `indexOf` being `-1`. -/
lemma implementInterface_skips (table : List Schema) (fuel : Nat) (st : BuildState)
    (parentId : Nat) (c : String)
    (h : jsIndexOf st.interfaceInterfaces parentId ≠ 0) :
    implementInterfaceForParentSchema table fuel st parentId c = st := by
  cases fuel with
  | zero => rfl
  | succ f => simp [implementInterfaceForParentSchema, h]

/-- On a fresh model interface `indexOf` yields `-1` for any parent. -/
lemma jsIndexOf_nil (x : Nat) : jsIndexOf [] x = -1 := by
  simp [jsIndexOf]

/-- On an empty interface record the whole `allOf` loop is the identity. -/
lemma handleAllOf_initial_id (table : List Schema) (fuel : Nat) (allOfIds : List Nat) :
    handleAllOf table fuel initialBuildState allOfIds = initialBuildState := by
  unfold handleAllOf
  induction allOfIds with
  | nil => rfl
  | cons p rest ih =>
    rw [List.foldl_cons,
      implementInterface_skips table fuel initialBuildState p "this"
        (by rw [show initialBuildState.interfaceInterfaces = [] from rfl, jsIndexOf_nil]; decide)]
    exact ih

/-- The own-property loop never touches the backing entries. -/
lemma foldl_addOwnProperty_backingFields :
    ∀ (props : List SProp) (st : BuildState),
      (props.foldl addOwnProperty st).backingFields = st.backingFields := by
  intro props
  induction props with
  | nil => intro st; rfl
  | cons p rest ih => intro st; rw [List.foldl_cons, ih]; rfl

/-- The own-property loop never touches the virtual-property surface. -/
lemma foldl_addOwnProperty_virtualProperties :
    ∀ (props : List SProp) (st : BuildState),
      (props.foldl addOwnProperty st).virtualProperties = st.virtualProperties := by
  intro props
  induction props with
  | nil => intro st; rfl
  | cons p rest ih => intro st; rw [List.foldl_cons, ih]; rfl

/-- The own-property loop never touches the recorded interface list. -/
lemma foldl_addOwnProperty_interfaceInterfaces :
    ∀ (props : List SProp) (st : BuildState),
      (props.foldl addOwnProperty st).interfaceInterfaces = st.interfaceInterfaces := by
  intro props
  induction props with
  | nil => intro st; rfl
  | cons p rest ih => intro st; rw [List.foldl_cons, ih]; rfl

/-- The backing entries of a built class are exactly those the `allOf`
flattening recorded. -/
lemma buildModelClass_backingFields (table : List Schema) (s : Schema)
    (proj : ProjectFlags) (fuel : Nat) :
    (buildModelClass table s proj fuel).backingFields
      = (handleAllOf table fuel initialBuildState s.allOf).backingFields :=
  foldl_addOwnProperty_backingFields s.props _

/-- The virtual-property surface of a built class is exactly what the `allOf`
flattening recorded. -/
lemma buildModelClass_virtualProperties (table : List Schema) (s : Schema)
    (proj : ProjectFlags) (fuel : Nat) :
    (buildModelClass table s proj fuel).virtualProperties
      = (handleAllOf table fuel initialBuildState s.allOf).virtualProperties :=
  foldl_addOwnProperty_virtualProperties s.props _

/-- The recorded interface list of a built class is exactly what the `allOf`
flattening recorded. -/
lemma buildModelClass_interfaceInterfaces (table : List Schema) (s : Schema)
    (proj : ProjectFlags) (fuel : Nat) :
    (buildModelClass table s proj fuel).interfaceInterfaces
      = (handleAllOf table fuel initialBuildState s.allOf).interfaceInterfaces :=
  foldl_addOwnProperty_interfaceInterfaces s.props _

/-! ## C4 — read-only ancestor properties lose their setter -/

/-- C4: for every ancestor interface property whose setter is internally
restricted, the proxy virtual property the flattening creates for it keeps its
read accessor and carries no write accessor at all (part_000 lines 292-299 set
`vp.setterStatements = undefined`, so no setter is emitted — not a no-op one). -/
theorem readonly_parent_property_has_no_setter :
    ∀ each : SProp, each.setAccess = Access.internal →
      (mkParentVirtualProperty each).getterStatements.isSome = true
      ∧ (mkParentVirtualProperty each).setterStatements = none := by
  intro each h
  simp [mkParentVirtualProperty, mkVirtualProperty, h]

/-- Witness for C4 at the concrete read-only property. -/
theorem readonly_parent_property_has_no_setter_witness :
    readOnlyProp.setAccess = Access.internal
    ∧ ((mkParentVirtualProperty readOnlyProp).getterStatements.isSome = true
       ∧ (mkParentVirtualProperty readOnlyProp).setterStatements = none) :=
  ⟨rfl, readonly_parent_property_has_no_setter readOnlyProp rfl⟩

/-! ## C7 — additional-properties three-way split -/

/-- C7 (evaluation at the failing input): the `anyType` rule attaches the
generic `IDictionary<string, object>` capability and the absent rule attaches
nothing, but the typed rule ALSO attaches nothing — the `else` branch at
part_000 lines 188-191 holds only the comment announcing the typed
implementation, contradicting it. -/
theorem additionalProperties_evaluation :
    (buildModelClass [] schemaAPAny projDefault 1).additionalPropertiesCapability
        = some ("System.String", "System.Object")
    ∧ (buildModelClass [] schemaAPTyped projDefault 1).additionalPropertiesCapability = none
    ∧ (buildModelClass [] schemaAPAbsent projDefault 1).additionalPropertiesCapability = none :=
  ⟨rfl, rfl, rfl⟩

/-! ## C6 — polymorphism flag -/

/-- C6: a built descriptor's `isPolymorphic` is true exactly when its schema
declares a discriminator property name (part_000 lines 88, 108-113); a schema
declaring only a discriminator literal is built non-polymorphic. Concretely,
in the Animal scenario the root is polymorphic, `Dog` is not, and the root's
map holds both subclasses. -/
theorem isPolymorphic_iff_discriminator_property :
    (∀ (table : List Schema) (s : Schema) (proj : ProjectFlags) (fuel : Nat),
        (buildModelClass table s proj fuel).isPolymorphic = s.discriminator.isSome)
    ∧ (getCls animalWorld 0).isPolymorphic = true
    ∧ (getCls animalWorld 1).isPolymorphic = false
    ∧ (getCls animalWorld 2).isPolymorphic = false
    ∧ (getCls animalWorld 0).discriminators = [("dog", 1), ("cat", 2)] :=
  ⟨fun _ _ _ _ => rfl, by decide, by decide, by decide, by decide⟩

/-! ## C2 — duplicate allOf entries -/

/-- C2 (evaluation at the failing input): flattening a schema whose `allOf`
lists the same parent identity twice produces NO backing entry at all, not
one: the line-272 guard `if (indexOf(parentInterface))` is truthy on `-1`, so
the very first occurrence returns before anything is recorded. -/
theorem duplicate_allOf_produces_no_backing_entry :
    ∀ fuel : Nat,
      (buildModelClass dupTable childSchemaDup projDefault fuel).backingFields = []
      ∧ (buildModelClass dupTable childSchemaDup projDefault fuel).interfaceInterfaces = [] := by
  intro fuel
  refine ⟨?_, ?_⟩
  · rw [buildModelClass_backingFields, handleAllOf_initial_id]; rfl
  · rw [buildModelClass_interfaceInterfaces, handleAllOf_initial_id]; rfl

/-! ## C3 — transitive ancestor flattening -/

/-- C3 (evaluation at the failing input): building the leaf of the chain
`Leaf → Middle → Grandparent` exposes no ancestor property whatsoever — the
virtual-property surface and the backing entries stay empty at every recursion
budget. The recursion at part_000 lines 306-310 passes `parentSchema` itself
rather than `each`, so grandparents are never visited, and the inverted
line-272 guard already stops the first-level flattening. -/
theorem ancestor_chain_not_flattened :
    ∀ fuel : Nat,
      (buildModelClass chainTable leafSchema projDefault fuel).virtualProperties = []
      ∧ (buildModelClass chainTable leafSchema projDefault fuel).backingFields = [] := by
  intro fuel
  refine ⟨?_, ?_⟩
  · rw [buildModelClass_virtualProperties, handleAllOf_initial_id]; rfl
  · rw [buildModelClass_backingFields, handleAllOf_initial_id]; rfl

/-! ## C9 — header-reading capability -/

/-- C9 (counterexample): the claimed iff fails on the code. `HeaderChild`
inherits the header-sourced `ETag` through its composed parent, and
`BodyHeader` owns a property marked `HeaderAndBody`; the spec-side predicate
counts both as header-sourced exposed properties, yet neither class receives
`ReadHeaders` (part_000 line 102 consults only own properties and only the
`Header` marker — the second disjunct of the source repeats the first). -/
theorem header_capability_iff_counterexample :
    (buildModelClass headerTable headerChildSchema projDefault 3).hasReadHeaders = false
    ∧ specExposedHeaderSourced headerTable 3 headerChildSchema = true
    ∧ (buildModelClass [] bodyHeaderSchema projDefault 3).hasReadHeaders = false
    ∧ specExposedHeaderSourced [] 3 bodyHeaderSchema = true :=
  ⟨rfl, rfl, rfl, rfl⟩

/-- C9 (amended): a built class receives `ReadHeaders` iff at least one of its
schema's OWN properties carries the header marker `HeaderPropertyType.Header`;
properties inherited through composed parents and properties marked
`HeaderAndBody` do not trigger it. -/
theorem header_capability_own_header_marker_only :
    ∀ (table : List Schema) (s : Schema) (proj : ProjectFlags) (fuel : Nat),
      (buildModelClass table s proj fuel).hasReadHeaders
        = s.props.any (fun p => p.headerProperty == some HeaderPropertyType.header) := by
  intro table s proj fuel
  simp [buildModelClass]

/-! ## C5 — deterministic backing-field renaming -/

/-- The candidate list is the range-indexed candidate sequence. -/
lemma fieldNameCandidates_eq_map (baseName : String) :
    fieldNameCandidates baseName = (List.range 100).map (candidateAt baseName) := by
  rw [show (100 : Nat) = 99 + 1 from rfl, List.range_succ_eq_map]
  simp only [List.map_cons, List.map_map]
  rw [fieldNameCandidates]
  refine congrArg (candidateAt baseName 0 :: ·) ?_
  apply List.map_congr_left
  intro i _
  rfl

/-- Unrolling of the scan loop: from position `n` with `k` positions left
before the bound, the loop computes exactly the first free candidate among the
remaining ones. -/
lemma getPrivateNameForFieldAux_eq (fields : List String) (baseName : String) :
    ∀ (k n : Nat), n + k = 100 → 0 < k →
      getPrivateNameForFieldAux fields baseName n (candidateAt baseName n)
        = ((List.range' n k).map (candidateAt baseName)).find?
            (fun c => !(fields.contains c)) := by
  intro k
  induction k with
  | zero => intro n _ h0; omega
  | succ k ih =>
    intro n hnk _
    rw [List.range'_succ, List.map_cons]
    rw [getPrivateNameForFieldAux]
    by_cases hc : fields.contains (candidateAt baseName n)
    · rw [if_neg (by simpa using hc), List.find?_cons_of_neg _ (by simpa using hc)]
      rcases Nat.eq_zero_or_pos k with hk | hk
      · subst hk
        rw [if_neg (by omega)]
        simp [List.range']
      · rw [if_pos (by omega)]
        have hnext : (baseName ++ toString n) = candidateAt baseName (n + 1) := rfl
        rw [hnext, ih (n + 1) (by omega) hk]
    · rw [if_pos (by simpa using hc), List.find?_cons_of_pos _ (by simpa using hc)]

/-- C5: the backing-field renaming is the deterministic first-fit scan over
the candidate sequence `base, base0, base1, …`: the result is exactly the
first candidate not already used by an existing field, the scanned sequence
has exactly 100 entries (the bounded attempt count), and a `none` result —
the source's thrown `Error` — occurs precisely when all 100 candidates are
taken. Determinism and stability across runs are inherent: the scan is a pure
function of the existing field names and the base name. -/
theorem fieldName_collision_resolution :
    ∀ (fields : List String) (baseName : String),
      getPrivateNameForField fields baseName
        = (fieldNameCandidates baseName).find? (fun c => !(fields.contains c))
      ∧ (fieldNameCandidates baseName).length = 100 := by
  intro fields baseName
  refine ⟨?_, by simp [fieldNameCandidates]⟩
  have h := getPrivateNameForFieldAux_eq fields baseName 100 0 rfl (by omega)
  rw [fieldNameCandidates_eq_map, List.range_eq_range']
  exact h

/-! ## C8 — validation capability gating -/

/-- Having some non-empty statement is the same as a non-empty filtered
sequence of actual checks. -/
lemma any_nonempty_iff_filter (l : List String) :
    (l.any (fun s => s ≠ "") = true) ↔ l.filter (fun s => s ≠ "") ≠ [] := by
  induction l with
  | nil => simp
  | cons s rest ih => by_cases h : s = "" <;> simp [h, ih]

/-- C8: the `Validate` method (with its `IValidates` interface) is attached
iff the accumulated validation sequence contains an actual (non-empty) check
AND the project's storage-pipeline flag is off; with the flag on, validation
is suppressed even when checks exist (part_000 lines 194-208). -/
theorem validate_capability_iff :
    ∀ (table : List Schema) (s : Schema) (proj : ProjectFlags) (fuel : Nat),
      (buildModelClass table s proj fuel).hasValidateMethod = true
        ↔ ((buildModelClass table s proj fuel).validationStatements.filter
              (fun st => st ≠ "") ≠ []
           ∧ proj.storagePipeline = false) := by
  intro table s proj fuel
  have hv : (buildModelClass table s proj fuel).hasValidateMethod
      = (!proj.storagePipeline && statementsHaveContent
          ((buildModelClass table s proj fuel).validationStatements)) := rfl
  rw [hv]
  generalize (buildModelClass table s proj fuel).validationStatements = L
  cases hsp : proj.storagePipeline <;>
    simp [statementsHaveContent, any_nonempty_iff_filter]

/-- Witness for C8: a schema with one required property yields a non-empty
check sequence, and with the storage pipeline off the method is attached. -/
theorem validate_capability_iff_witness :
    ((buildModelClass [] validSchema projDefault 1).validationStatements.filter
        (fun st => st ≠ "") ≠ []
      ∧ projDefault.storagePipeline = false)
    ∧ (buildModelClass [] validSchema projDefault 1).hasValidateMethod = true := by
  have h : (buildModelClass [] validSchema projDefault 1).validationStatements.filter
      (fun st => st ≠ "") ≠ [] ∧ projDefault.storagePipeline = false := ⟨by decide, rfl⟩
  exact ⟨h, (validate_capability_iff [] validSchema projDefault 1).mpr h⟩

/-! ## Discriminator propagation lemmas (towards C1 and C10) -/

/-- A property preserved by every step of a fold is preserved by the fold. -/
lemma foldl_preserves {α : Type} (P : List DiscState → Prop)
    (f : List DiscState → α → List DiscState)
    (hf : ∀ w x, P w → P (f w x)) :
    ∀ (ps : List α) (w : List DiscState), P w → P (ps.foldl f w) := by
  intro ps
  induction ps with
  | nil => intro w h; exact h
  | cons x rest ih => intro w h; rw [List.foldl_cons]; exact ih (f w x) (hf w x h)

/-- Setting a discriminator entry never changes any recorded-parent list. -/
lemma parentsMap_setDisc (v : String) (d : Nat) :
    ∀ (w : List DiscState) (i : Nat), parentsMap (setDisc v d w i) = parentsMap w := by
  intro w
  induction w with
  | nil => intro i; rfl
  | cons c rest ih =>
    intro i
    cases i with
    | zero => rfl
    | succ i =>
      show c.parentModelClasses :: parentsMap (setDisc v d rest i)
        = c.parentModelClasses :: parentsMap rest
      rw [ih i]

/-- Discriminator registration never changes any recorded-parent list. -/
lemma parentsMap_aux (v : String) (d : Nat) :
    ∀ (fuel : Nat) (w : List DiscState) (t : Nat),
      parentsMap (addDiscriminatorAux v d fuel w t) = parentsMap w := by
  intro fuel
  induction fuel with
  | zero => intro w t; rfl
  | succ f ih =>
    intro w t
    show parentsMap (((getCls (setDisc v d w t) t).parentModelClasses).foldl
        (fun acc p => addDiscriminatorAux v d f acc p) (setDisc v d w t)) = parentsMap w
    have h := foldl_preserves
      (fun w' => parentsMap w' = parentsMap (setDisc v d w t))
      (fun acc p => addDiscriminatorAux v d f acc p)
      (fun w' p hp => by
        show parentsMap (addDiscriminatorAux v d f w' p) = parentsMap (setDisc v d w t)
        rw [ih w' p]
        exact hp)
      ((getCls (setDisc v d w t) t).parentModelClasses) (setDisc v d w t) rfl
    rw [h, parentsMap_setDisc]

lemma length_parentsMap (w : List DiscState) : (parentsMap w).length = w.length :=
  List.length_map ..

/-- The recorded-parent list of a class, read off `parentsMap`. -/
lemma getCls_parents : ∀ (w : List DiscState) (i : Nat),
    (getCls w i).parentModelClasses = (parentsMap w).getD i [] := by
  intro w
  induction w with
  | nil => intro i; cases i <;> rfl
  | cons c rest ih =>
    intro i
    cases i with
    | zero => rfl
    | succ i => exact ih i

/-- Worlds with equal recorded-parent structure share well-formedness. -/
lemma wfParents_of_parentsMap {w w' : List DiscState}
    (h : parentsMap w' = parentsMap w) (hw : wfParents w) : wfParents w' := by
  intro i hi p hp
  have hlen : w'.length = w.length := by
    rw [← length_parentsMap, h, length_parentsMap]
  apply hw i (by omega) p
  rw [getCls_parents] at hp ⊢
  rw [h] at hp
  exact hp

/-- Worlds with equal recorded-parent structure share reachability. -/
lemma polyAncestor_of_parentsMap {w w' : List DiscState}
    (h : parentsMap w' = parentsMap w) {t a : Nat} :
    PolyAncestor w t a → PolyAncestor w' t a := by
  intro hr
  induction hr with
  | refl t => exact PolyAncestor.refl t
  | step t p a hp hlt _ ih =>
    refine PolyAncestor.step t p a ?_ hlt ih
    rw [getCls_parents, h, ← getCls_parents]
    exact hp

/-- Looking the key up after an in-place replacement finds the new value. -/
lemma find?_map_replace (k : String) (v : Nat) :
    ∀ (m : List (String × Nat)), m.any (fun e => e.1 = k) →
      mapGet (m.map (fun e => if e.1 = k then (k, v) else e)) k = some v := by
  intro m
  induction m with
  | nil => intro h; simp at h
  | cons e rest ih =>
    intro h
    by_cases he : e.1 = k
    · rw [List.map_cons, if_pos he, mapGet, List.find?_cons_of_pos _ (by simp)]
      rfl
    · rw [List.map_cons, if_neg he, mapGet, List.find?_cons_of_neg _ (by simpa using he)]
      have hr : rest.any (fun e => e.1 = k) := by
        rcases (List.any_eq_true ..).mp h with ⟨x, hx, hxk⟩
        rcases List.mem_cons.mp hx with rfl | hx'
        · exact absurd (by simpa using hxk) he
        · exact (List.any_eq_true ..).mpr ⟨x, hx', hxk⟩
      exact ih hr

/-- Looking the key up after appending it finds the appended value. -/
lemma find?_append_self (k : String) (v : Nat) :
    ∀ (m : List (String × Nat)), ¬ m.any (fun e => e.1 = k) →
      mapGet (m ++ [(k, v)]) k = some v := by
  intro m
  induction m with
  | nil =>
    intro _
    rw [List.nil_append, mapGet, List.find?_cons_of_pos _ (by simp)]
    rfl
  | cons e rest ih =>
    intro h
    have he : ¬ e.1 = k := by
      intro hk
      exact h ((List.any_eq_true ..).mpr ⟨e, by simp, by simpa using hk⟩)
    have hr : ¬ rest.any (fun e => e.1 = k) := by
      intro hk
      rcases (List.any_eq_true ..).mp hk with ⟨x, hx, hxk⟩
      exact h ((List.any_eq_true ..).mpr ⟨x, by simp [hx], hxk⟩)
    rw [List.cons_append, mapGet, List.find?_cons_of_neg _ (by simpa using he)]
    exact ih hr

/-- JS `Map.set` followed by `Map.get` of the same key yields the set value. -/
lemma mapGet_mapSet_self (m : List (String × Nat)) (k : String) (v : Nat) :
    mapGet (mapSet m k v) k = some v := by
  by_cases h : m.any (fun e => e.1 = k)
  · rw [mapSet, if_pos h]; exact find?_map_replace k v m h
  · rw [mapSet, if_neg h]; exact find?_append_self k v m h

/-- The effect of `setDisc` on any class's discriminator map: untouched or
replaced by a `mapSet` of the same entry. -/
lemma discriminators_setDisc (v : String) (d : Nat) :
    ∀ (w : List DiscState) (i j : Nat),
      (getCls (setDisc v d w i) j).discriminators = (getCls w j).discriminators
      ∨ (getCls (setDisc v d w i) j).discriminators
          = mapSet (getCls w j).discriminators v d := by
  intro w
  induction w with
  | nil => intro i j; left; rfl
  | cons c rest ih =>
    intro i j
    cases i with
    | zero =>
      cases j with
      | zero => right; rfl
      | succ j => left; rfl
    | succ i =>
      cases j with
      | zero => left; rfl
      | succ j => exact ih i j

/-- In range, `setDisc` performs exactly the `mapSet` on the target class. -/
lemma discriminators_setDisc_self (v : String) (d : Nat) :
    ∀ (w : List DiscState) (i : Nat), i < w.length →
      (getCls (setDisc v d w i) i).discriminators
        = mapSet (getCls w i).discriminators v d := by
  intro w
  induction w with
  | nil => intro i h; simp at h
  | cons c rest ih =>
    intro i h
    cases i with
    | zero => rfl
    | succ i => exact ih i (by simpa using h)

/-- Once a class's map answers `some d` for the registered literal, any
further registration of the same literal/descriptor pair keeps that answer. -/
lemma aux_preserves_some (v : String) (d : Nat) (a : Nat) :
    ∀ (fuel : Nat) (w : List DiscState) (t : Nat),
      mapGet (getCls w a).discriminators v = some d →
      mapGet (getCls (addDiscriminatorAux v d fuel w t) a).discriminators v = some d := by
  intro fuel
  induction fuel with
  | zero => intro w t h; exact h
  | succ f ih =>
    intro w t h
    have hset : mapGet (getCls (setDisc v d w t) a).discriminators v = some d := by
      rcases discriminators_setDisc v d w t a with heq | heq
      · rw [heq]; exact h
      · rw [heq]; exact mapGet_mapSet_self ..
    exact foldl_preserves
      (fun w' => mapGet (getCls w' a).discriminators v = some d)
      (fun acc p => addDiscriminatorAux v d f acc p)
      (fun w' p hp => ih w' p hp)
      ((getCls (setDisc v d w t) t).parentModelClasses) (setDisc v d w t) hset

/-- Core of C1: with enough fuel (the target index suffices on well-formed
worlds), registering `v → d` on `target` makes every class reachable through
the recorded polymorphic-parent chain answer `some d` for `v`. -/
lemma aux_sets_ancestor (v : String) (d : Nat) :
    ∀ (t fuel : Nat) (w : List DiscState) (a : Nat),
      t < fuel → wfParents w → t < w.length → PolyAncestor w t a →
      mapGet (getCls (addDiscriminatorAux v d fuel w t) a).discriminators v = some d := by
  intro t
  induction t using Nat.strong_induction_on with
  | _ t IH =>
    intro fuel w a hfuel hwf hlen hreach
    cases fuel with
    | zero => omega
    | succ f =>
      have hw1parents : parentsMap (setDisc v d w t) = parentsMap w :=
        parentsMap_setDisc v d w t
      cases hreach with
      | refl =>
        have hself : mapGet (getCls (setDisc v d w t) t).discriminators v = some d := by
          rw [discriminators_setDisc_self v d w t hlen]
          exact mapGet_mapSet_self ..
        exact foldl_preserves
          (fun w' => mapGet (getCls w' t).discriminators v = some d)
          (fun acc p => addDiscriminatorAux v d f acc p)
          (fun w' p hp => aux_preserves_some v d t f w' p hp)
          ((getCls (setDisc v d w t) t).parentModelClasses) (setDisc v d w t) hself
      | step t p a hp hlt hsub =>
        have hwalk : ∀ (ps : List Nat) (w' : List DiscState),
            parentsMap w' = parentsMap w → p ∈ ps →
            mapGet (getCls (ps.foldl
                (fun acc q => addDiscriminatorAux v d f acc q) w') a).discriminators v
              = some d := by
          intro ps
          induction ps with
          | nil => intro w' _ hmem; cases hmem
          | cons q rest ihps =>
            intro w' hpm hmem
            rw [List.foldl_cons]
            rcases List.mem_cons.mp hmem with rfl | hmem'
            · have hres : mapGet (getCls (addDiscriminatorAux v d f w' p) a).discriminators v
                  = some d := by
                apply IH p hlt f w' a (by omega)
                  (wfParents_of_parentsMap hpm hwf)
                  (by rw [← length_parentsMap w', hpm, length_parentsMap]; omega)
                  (polyAncestor_of_parentsMap hpm hsub)
              exact foldl_preserves
                (fun w2 => mapGet (getCls w2 a).discriminators v = some d)
                (fun acc q => addDiscriminatorAux v d f acc q)
                (fun w2 q hq => aux_preserves_some v d a f w2 q hq)
                rest (addDiscriminatorAux v d f w' p) hres
            · apply ihps (addDiscriminatorAux v d f w' q)
              · rw [parentsMap_aux, hpm]
              · exact hmem'
        apply hwalk ((getCls (setDisc v d w t) t).parentModelClasses) (setDisc v d w t)
          hw1parents
        rw [getCls_parents, hw1parents, ← getCls_parents]
        exact hp

/-- Replacing in place is idempotent on the key's entries. -/
lemma map_replace_idem (k : String) (v : Nat) (m : List (String × Nat)) :
    (m.map (fun e => if e.1 = k then (k, v) else e)).map
        (fun e => if e.1 = k then (k, v) else e)
      = m.map (fun e => if e.1 = k then (k, v) else e) := by
  rw [List.map_map]
  apply List.map_congr_left
  intro e _
  by_cases he : e.1 = k <;> simp [Function.comp, he]

/-- A list without the key is untouched by the in-place replacement. -/
lemma map_replace_of_not_any (k : String) (v : Nat) :
    ∀ (m : List (String × Nat)), ¬ m.any (fun e => e.1 = k) →
      m.map (fun e => if e.1 = k then (k, v) else e) = m := by
  intro m
  induction m with
  | nil => intro _; rfl
  | cons e rest ih =>
    intro h
    rw [List.any_cons] at h
    simp only [Bool.or_eq_true, not_or] at h
    rw [List.map_cons, if_neg (by simpa using h.1), ih h.2]

/-- JS `Map.set` with a fixed key/value pair is idempotent. -/
lemma mapSet_idem (k : String) (v : Nat) (m : List (String × Nat)) :
    mapSet (mapSet m k v) k v = mapSet m k v := by
  by_cases h : m.any (fun e => e.1 = k)
  · have h1 : mapSet m k v = m.map (fun e => if e.1 = k then (k, v) else e) := by
      rw [mapSet, if_pos h]
    have h2 : (m.map (fun e => if e.1 = k then (k, v) else e)).any
        (fun e => e.1 = k) := by
      rcases (List.any_eq_true ..).mp h with ⟨x, hx, hxk⟩
      refine (List.any_eq_true ..).mpr ⟨(k, v), List.mem_map.mpr ⟨x, hx, ?_⟩, by simp⟩
      rw [if_pos (by simpa using hxk)]
    rw [h1, mapSet, if_pos h2, map_replace_idem]
  · have h1 : mapSet m k v = m ++ [(k, v)] := by rw [mapSet, if_neg h]
    have h2 : (m ++ [(k, v)]).any (fun e => e.1 = k) := by
      rw [List.any_append]
      simp
    rw [h1, mapSet, if_pos h2, List.map_append, map_replace_of_not_any k v m h]
    simp

/-- Effect of `mapSet` on the key's entry count: an existing key keeps its
count, a fresh key gets exactly one entry. -/
lemma countKey_mapSet (k : String) (v : Nat) (m : List (String × Nat)) :
    countKey (mapSet m k v) k = if countKey m k = 0 then 1 else countKey m k := by
  by_cases h : m.any (fun e => e.1 = k)
  · have hpos : 0 < countKey m k := by
      rw [countKey, List.countP_pos_iff]
      rcases (List.any_eq_true ..).mp h with ⟨x, hx, hxk⟩
      exact ⟨x, hx, hxk⟩
    rw [mapSet, if_pos h, if_neg (by omega), countKey, List.countP_map, countKey]
    apply List.countP_congr
    intro e _
    by_cases he : e.1 = k <;> simp [Function.comp, he]
  · have hz : countKey m k = 0 := by
      rw [countKey, List.countP_eq_zero]
      intro e he hek
      exact h ((List.any_eq_true ..).mpr ⟨e, he, hek⟩)
    rw [mapSet, if_neg h, countKey, List.countP_append, ← countKey, hz, if_pos rfl]
    simp

/-- `mapSet` keeps the entry count of its key at one. -/
lemma countKey_mapSet_le_one (k : String) (v : Nat) (m : List (String × Nat))
    (h : countKey m k ≤ 1) : countKey (mapSet m k v) k ≤ 1 := by
  rw [countKey_mapSet]
  split <;> omega

/-- A successful lookup means at least one entry for the key. -/
lemma mapGet_some_countKey_pos (m : List (String × Nat)) (k : String) (x : Nat)
    (h : mapGet m k = some x) : 0 < countKey m k := by
  rw [countKey, List.countP_pos_iff]
  rw [mapGet] at h
  rcases hf : m.find? (fun e => e.1 = k) with _ | e
  · rw [hf] at h; simp at h
  · have hpe := List.find?_some hf
    exact ⟨e, List.mem_of_find?_eq_some hf, hpe⟩

/-- Any class's discriminator map after a registration is either untouched or
a `mapSet` of the registered entry over its previous value. -/
lemma discriminators_aux (v : String) (d : Nat) (a : Nat) :
    ∀ (fuel : Nat) (w : List DiscState) (t : Nat),
      (getCls (addDiscriminatorAux v d fuel w t) a).discriminators
          = (getCls w a).discriminators
      ∨ (getCls (addDiscriminatorAux v d fuel w t) a).discriminators
          = mapSet (getCls w a).discriminators v d := by
  intro fuel
  induction fuel with
  | zero => intro w t; left; rfl
  | succ f ih =>
    intro w t
    have hstep : ∀ (w' : List DiscState) (p : Nat),
        ((getCls w' a).discriminators = (getCls w a).discriminators
          ∨ (getCls w' a).discriminators = mapSet (getCls w a).discriminators v d) →
        ((getCls (addDiscriminatorAux v d f w' p) a).discriminators
            = (getCls w a).discriminators
          ∨ (getCls (addDiscriminatorAux v d f w' p) a).discriminators
              = mapSet (getCls w a).discriminators v d) := by
      intro w' p hw'
      rcases ih w' p with h1 | h1 <;> rcases hw' with h2 | h2
      · left; rw [h1, h2]
      · right; rw [h1, h2]
      · right; rw [h1, h2]
      · right; rw [h1, h2, mapSet_idem]
    have hset : (getCls (setDisc v d w t) a).discriminators = (getCls w a).discriminators
        ∨ (getCls (setDisc v d w t) a).discriminators
            = mapSet (getCls w a).discriminators v d :=
      discriminators_setDisc v d w t a
    exact foldl_preserves
      (fun w' => (getCls w' a).discriminators = (getCls w a).discriminators
        ∨ (getCls w' a).discriminators = mapSet (getCls w a).discriminators v d)
      (fun acc p => addDiscriminatorAux v d f acc p)
      hstep
      ((getCls (setDisc v d w t) t).parentModelClasses) (setDisc v d w t) hset

/-! ## C1 — transitive discriminator propagation -/

/-- C1: when a descriptor registers its discriminator literal `v` on a target
class, every class reachable from the target through the recorded
polymorphic-parent chain ends up holding `v → that descriptor` in its own map
(on well-formed worlds, where recorded parents were built first); in the
concrete chain `R → C (literal "c") → G (literal "g")` built by the pass,
`R`'s map holds both entries and `C`'s map holds `"g" → G`. -/
theorem discriminator_propagation_transitive :
    (∀ (w : List DiscState) (t : Nat) (v : String) (d a : Nat),
        wfParents w → t < w.length → PolyAncestor w t a →
        mapGet (getCls (addDiscriminator w t v d) a).discriminators v = some d)
    ∧ mapGet (getCls chainWorld 0).discriminators "c" = some 1
    ∧ mapGet (getCls chainWorld 0).discriminators "g" = some 2
    ∧ mapGet (getCls chainWorld 1).discriminators "g" = some 2 := by
  refine ⟨?_, by decide, by decide, by decide⟩
  intro w t v d a hwf hlen hreach
  exact aux_sets_ancestor v d t (t + 1) w a (Nat.lt_succ_self t) hwf hlen hreach

/-- Witness for C1: a fresh registration on the grandchild of the concrete
chain world reaches the root. -/
theorem discriminator_propagation_transitive_witness :
    (wfParents chainWorld ∧ 2 < chainWorld.length ∧ PolyAncestor chainWorld 2 0)
    ∧ mapGet (getCls (addDiscriminator chainWorld 2 "w" 9) 0).discriminators "w"
        = some 9 := by
  have hreach : PolyAncestor chainWorld 2 0 :=
    PolyAncestor.step 2 1 0 (by decide) (by decide)
      (PolyAncestor.step 1 0 0 (by decide) (by decide) (PolyAncestor.refl 0))
  exact ⟨⟨by decide, by decide, hreach⟩,
    discriminator_propagation_transitive.1 chainWorld 2 "w" 9 0 (by decide) (by decide)
      hreach⟩

/-! ## C10 — re-registration of the same literal overwrites -/

/-- C10: registering the same discriminator literal twice with different
descriptors raises no error (the operation is total) and keeps only the second
registration: on every class reachable through the recorded
polymorphic-parent chain, the lookup answers the second descriptor and the
literal owns exactly one map entry. -/
theorem addDiscriminator_same_literal_overwrites :
    ∀ (w : List DiscState) (t : Nat) (v : String) (d1 d2 a : Nat),
      wfParents w → t < w.length → PolyAncestor w t a →
      countKey (getCls w a).discriminators v ≤ 1 →
      mapGet (getCls (addDiscriminator (addDiscriminator w t v d1) t v d2) a).discriminators v
          = some d2
      ∧ countKey (getCls (addDiscriminator (addDiscriminator w t v d1) t v d2) a).discriminators v
          = 1 := by
  intro w t v d1 d2 a hwf hlen hreach hcount
  simp only [addDiscriminator]
  have hpm : parentsMap (addDiscriminatorAux v d1 (t + 1) w t) = parentsMap w :=
    parentsMap_aux ..
  have hwf1 : wfParents (addDiscriminatorAux v d1 (t + 1) w t) :=
    wfParents_of_parentsMap hpm hwf
  have hlen1 : t < (addDiscriminatorAux v d1 (t + 1) w t).length := by
    rw [← length_parentsMap, hpm, length_parentsMap]
    exact hlen
  have hreach1 : PolyAncestor (addDiscriminatorAux v d1 (t + 1) w t) t a :=
    polyAncestor_of_parentsMap hpm hreach
  have hlook := aux_sets_ancestor v d2 t (t + 1) (addDiscriminatorAux v d1 (t + 1) w t) a
    (Nat.lt_succ_self t) hwf1 hlen1 hreach1
  refine ⟨hlook, ?_⟩
  have hc1 : countKey (getCls (addDiscriminatorAux v d1 (t + 1) w t) a).discriminators v
      ≤ 1 := by
    rcases discriminators_aux v d1 a (t + 1) w t with h1 | h1 <;> rw [h1]
    · exact hcount
    · exact countKey_mapSet_le_one _ _ _ hcount
  have hc2 : countKey
      (getCls (addDiscriminatorAux v d2 (t + 1) (addDiscriminatorAux v d1 (t + 1) w t) t)
        a).discriminators v ≤ 1 := by
    rcases discriminators_aux v d2 a (t + 1) (addDiscriminatorAux v d1 (t + 1) w t) t
      with h1 | h1 <;> rw [h1]
    · exact hc1
    · exact countKey_mapSet_le_one _ _ _ hc1
  have hpos := mapGet_some_countKey_pos _ _ _ hlook
  omega

/-- Witness for C10: in the chain world, re-registering `"g"` on `C` with a
new descriptor overwrites the entry on `C`'s recorded ancestor `R` as well. -/
theorem addDiscriminator_same_literal_overwrites_witness :
    (wfParents chainWorld ∧ 1 < chainWorld.length ∧ PolyAncestor chainWorld 1 0
      ∧ countKey (getCls chainWorld 0).discriminators "g" ≤ 1)
    ∧ mapGet (getCls (addDiscriminator (addDiscriminator chainWorld 1 "g" 5) 1 "g" 6)
          0).discriminators "g" = some 6
    ∧ countKey (getCls (addDiscriminator (addDiscriminator chainWorld 1 "g" 5) 1 "g" 6)
          0).discriminators "g" = 1 := by
  have hreach : PolyAncestor chainWorld 1 0 :=
    PolyAncestor.step 1 0 0 (by decide) (by decide) (PolyAncestor.refl 0)
  have h := addDiscriminator_same_literal_overwrites chainWorld 1 "g" 5 6 0
    (by decide) (by decide) hreach (by decide)
  exact ⟨⟨by decide, by decide, hreach, by decide⟩, h.1, h.2⟩

end AutorestModel
